import Mathlib

/-!
Verification development for `ros_voice_control.py`, the single source file of
the `ros_pocketsphinx` repository.

The script owns a mutable `Twist` velocity command, a speed-mode flag, and a
leaked per-segment variable `seg` (Python 2 list-comprehension scoping), runs a
blocking read / decode / dispatch / publish loop, and on shutdown publishes a
zero command once.  We embed the state-relevant fragment shallowly:

* `Vector3` / `Twist` mirror `geometry_msgs.msg.Twist` (zero-valued fields by
  default, as `Twist()` constructs them); scalars are `ℚ`, which is exact for
  every operation the script performs (doubling, and comparison with the
  literals 0.2 / 0.4, all of which behave identically in the source's floats).
* `ASRState` holds the fields `self.speed`, `self.msg`, and the leaked
  comprehension variable `seg` (modelled by the string it holds, `segWord`;
  `none` means the name is still unbound, so reading it raises `NameError`).
* The external decoder is an oracle: each loop iteration's input says whether
  the audio read returned data and, if so, what hypothesis (segment word list)
  the decoder reports afterwards.
* `parse_asr_result` is a function from state and hypothesis to either a
  `NameError` or the new state together with the single message it publishes.
* `runLoop` replays the `while not rospy.is_shutdown()` loop of `__init__`,
  emitting an event trace (`procRaw` for `decoder.process_raw`, `pub` for
  `self.pub_.publish`); `runProgram` appends the `shutdown` hook's single
  zero-command publish, which `rospy` runs on every exit path.
-/

namespace RosVC

/-- Mirrors `geometry_msgs/Vector3`: three scalar fields, zero by default. -/
structure Vector3 where
  x : ℚ := 0
  y : ℚ := 0
  z : ℚ := 0
  deriving DecidableEq, Repr

/-- Mirrors `geometry_msgs/Twist`: `Twist()` zero-fills both vectors. -/
structure Twist where
  linear : Vector3 := {}
  angular : Vector3 := {}
  deriving DecidableEq, Repr

/-- The all-zero command `Twist()` published by `ASRControl.shutdown`. -/
def Twist.zero : Twist := {}

/-- The mutable state of the `ASRControl` object, plus the leaked Python 2
comprehension variable `seg` (its `word` attribute is what the dispatch code
reads; `none` models the name being unbound, so that reading it raises
`NameError`). -/
structure ASRState where
  speed : ℚ
  msg : Twist
  segWord : Option String
  deriving DecidableEq, Repr

/-- State established by `__init__` before the loop: `self.speed = 0.2`,
`self.msg = Twist()`, and `seg` not yet bound. -/
def initState : ASRState := { speed := 0.2, msg := Twist.zero, segWord := none }

/-- Whether `needle` occurs as a contiguous run inside `haystack`. -/
def listContains (haystack needle : List Char) : Bool :=
  match haystack with
  | [] => needle.isEmpty
  | _ :: t => needle.isPrefixOf haystack || listContains t needle

/-- Python's `haystack.find(needle) > -1`: substring containment. -/
def pyContains (haystack needle : String) : Bool :=
  listContains haystack.data needle.data

/-- Python's `str.lower()`, character by character (the script's keywords are
ASCII, where this agrees with Python exactly). -/
def pyLower (s : String) : String :=
  ⟨s.data.map Char.toLower⟩

/-- One decoder hypothesis, as the list of recognized segment words that
`self.decoder.seg()` iterates over.  `parse_asr_result` only ever reads the
comprehension's final `seg`, i.e. the last word of this list. -/
abbrev Hyp := List String

/-- The word the dispatch code actually reads: the last segment of the current
hypothesis when the segment list is nonempty, otherwise whatever stale value
the leaked `seg` variable still holds from an earlier call. -/
def effSegWord (prev : Option String) (segs : Hyp) : Option String :=
  match segs.getLast? with
  | some w => some w
  | none => prev

/-- `ASRControl.parse_asr_result`, for one call.  `hyp = none` models
`self.decoder.hyp() == None`: the body is skipped and the held command is
published unchanged.  Otherwise the code lowercases the leaked `seg`'s word
(writing it back into the object, hence into the carried state), restarts the
utterance, runs the `"full speed"` containment test guarded by
`self.speed == 0.2`, and unconditionally publishes `self.msg`.  The result is
the new state together with the one published message; `Except.error` is the
`NameError` raised when `seg` was never bound and the segment list is empty. -/
def parse_asr_result (st : ASRState) (hyp : Option Hyp) :
    Except Unit (ASRState × Twist) :=
  match hyp with
  | none => .ok (st, st.msg)
  | some segs =>
    match effSegWord st.segWord segs with
    | none => .error ()
    | some w =>
      let w := pyLower w
      let st := { st with segWord := some w }
      let st :=
        if pyContains w "full speed" then
          if st.speed = 0.2 then
            { st with
              msg := { st.msg with
                linear := { st.msg.linear with x := st.msg.linear.x * 2 }
                angular := { st.msg.angular with z := st.msg.angular.z * 2 } }
              speed := 0.4 }
          else st
        else st
      .ok (st, st.msg)

/-- One iteration's external input: either the audio read returned no data
(`eof`, the `else: break` branch) or it returned a buffer, after whose
`process_raw` the decoder reports the given hypothesis. -/
inductive LoopInput where
  | eof : LoopInput
  | data : Option Hyp → LoopInput
  deriving DecidableEq, Repr

/-- Whether the audio read of this iteration returned data. -/
def LoopInput.isData : LoopInput → Bool
  | .eof => false
  | .data _ => true

/-- Observable actions of one run: feeding a raw buffer to the decoder, and
publishing a velocity command. -/
inductive Event where
  | procRaw : Event
  | pub : Twist → Event
  deriving DecidableEq, Repr

/-- Whether an event is a publish. -/
def Event.isPub : Event → Bool
  | .pub _ => true
  | _ => false

/-- How the main loop ended: normally (shutdown signal observed at the top of
the loop, i.e. the input list ran out, or end-of-stream `break`), or by an
uncaught `NameError` escaping `parse_asr_result`. -/
inductive LoopExit where
  | normal : ASRState → LoopExit
  | errored : LoopExit
  deriving DecidableEq, Repr

/-- The `while not rospy.is_shutdown()` loop of `__init__`: read one buffer;
if it is empty, `break`; otherwise `process_raw` then `parse_asr_result`
exactly once.  Returns the event trace and how the loop ended. -/
def runLoop (st : ASRState) : List LoopInput → List Event × LoopExit
  | [] => ([], .normal st)
  | .eof :: _ => ([], .normal st)
  | .data hyp :: rest =>
    match parse_asr_result st hyp with
    | .error _ => ([.procRaw], .errored)
    | .ok (st', t) =>
      let r := runLoop st' rest
      (.procRaw :: .pub t :: r.1, r.2)

/-- Successive `ASRControl` states, starting with the given one and recording
the state after each completed iteration of the loop. -/
def runLoopStates (st : ASRState) : List LoopInput → List ASRState
  | [] => [st]
  | .eof :: _ => [st]
  | .data hyp :: rest =>
    match parse_asr_result st hyp with
    | .error _ => [st]
    | .ok (st', _) => st :: runLoopStates st' rest

/-- `ASRControl.shutdown`: publish `Twist()` once.  `rospy` runs the hook
registered by `rospy.on_shutdown` on every process exit (interrupt, normal
return, or uncaught exception), so a whole run's trace is the loop's trace
followed by this one zero-command publish. -/
def runProgram (inputs : List LoopInput) : List Event :=
  (runLoop initState inputs).1 ++ [.pub Twist.zero]

/-- Number of publish events in a trace. -/
def countPubs (evs : List Event) : Nat :=
  (evs.filter Event.isPub).length

example : pyContains "full speed please" "full speed" = true := by decide
example : pyContains "forward" "full speed" = false := by decide
example : pyLower "Full SPEED" = "full speed" := by decide

/-! ### Helper lemmas -/

/-- The two speed-mode values are distinct. -/
theorem speed_vals_ne : (0.4 : ℚ) ≠ 0.2 := by norm_num

/-- A call with no hypothesis publishes the held command and changes
nothing. -/
theorem parse_none (st : ASRState) :
    parse_asr_result st none = .ok (st, st.msg) := rfl

/-- A call whose hypothesis has a nonempty segment list never raises. -/
theorem parse_some_ok (st : ASRState) (segs : Hyp) (hne : segs ≠ []) :
    ∃ st' t, parse_asr_result st (some segs) = .ok (st', t) := by
  obtain ⟨w, hw⟩ := List.getLast?_isSome.mpr hne |> Option.isSome_iff_exists.mp
  simp only [parse_asr_result, effSegWord, hw]
  split <;> exact ⟨_, _, rfl⟩

/-- The state after a successful "full speed" dispatch from baseline: both
held magnitudes doubled in place, speed mode advanced, dispatched word
stored. -/
def doubled (st : ASRState) (w : String) : ASRState :=
  { speed := 0.4,
    msg := { st.msg with
      linear := { st.msg.linear with x := st.msg.linear.x * 2 }
      angular := { st.msg.angular with z := st.msg.angular.z * 2 } },
    segWord := some w }

/-- Shape of every successful dispatch: the published message is the held
message after the (possibly trivial) mutation, and the state either keeps its
message and speed unchanged or is exactly the doubled state of a baseline
dispatch. -/
theorem parse_ok_inv (st st' : ASRState) (hyp : Option Hyp) (t : Twist)
    (h : parse_asr_result st hyp = .ok (st', t)) :
    t = st'.msg ∧
      ((st'.msg = st.msg ∧ st'.speed = st.speed) ∨
        (st.speed = 0.2 ∧ ∃ w, st' = doubled st w)) := by
  unfold parse_asr_result at h
  match hyp with
  | none =>
    simp only at h
    cases h
    exact ⟨rfl, Or.inl ⟨rfl, rfl⟩⟩
  | some segs =>
    simp only at h
    cases heff : effSegWord st.segWord segs with
    | none => rw [heff] at h; cases h
    | some w =>
      rw [heff] at h
      dsimp only at h
      split at h
      · split at h
        · cases h
          exact ⟨rfl, Or.inr ⟨by assumption, pyLower w, rfl⟩⟩
        · cases h; exact ⟨rfl, Or.inl ⟨rfl, rfl⟩⟩
      · cases h; exact ⟨rfl, Or.inl ⟨rfl, rfl⟩⟩

/-- A detecting dispatch from the baseline mode produces exactly the doubled
state and publishes its message. -/
theorem parse_detect_baseline (st : ASRState) (segs : Hyp) (w : String)
    (hw : effSegWord st.segWord segs = some w)
    (hdet : pyContains (pyLower w) "full speed" = true)
    (hsp : st.speed = 0.2) :
    parse_asr_result st (some segs) =
      .ok (doubled st (pyLower w), (doubled st (pyLower w)).msg) := by
  simp only [parse_asr_result, hw, hdet, hsp, if_true, doubled, eq_self_iff_true]

/-- A detecting dispatch while already in elevated mode only rewrites the
stored word: message and speed are untouched and the held message is
republished. -/
theorem parse_detect_elevated (st : ASRState) (segs : Hyp) (w : String)
    (hw : effSegWord st.segWord segs = some w)
    (hsp : st.speed = 0.4) :
    parse_asr_result st (some segs) =
      .ok ({ st with segWord := some (pyLower w) }, st.msg) := by
  have hne : ¬ (({ st with segWord := some (pyLower w) } : ASRState).speed
      = 0.2) := by
    show ¬ (st.speed = 0.2)
    rw [hsp]; exact speed_vals_ne
  simp only [parse_asr_result, hw, if_neg hne]
  split <;> rfl

/-! ### Claim theorems -/

/-- C1: if a "full speed" keyword is detected by `parse_asr_result` while the
speed mode equals the baseline 0.2, the command published immediately after
has linear and angular magnitudes exactly twice their pre-detection values
(a multiplication of the held command, not an absolute assignment), and the
speed mode becomes 0.4. -/
theorem full_speed_detection_doubles (st : ASRState) (segs : Hyp) (w : String)
    (hw : effSegWord st.segWord segs = some w)
    (hdet : pyContains (pyLower w) "full speed" = true)
    (hsp : st.speed = 0.2) :
    ∃ st', parse_asr_result st (some segs) = .ok (st', st'.msg) ∧
      st'.msg.linear.x = st.msg.linear.x * 2 ∧
      st'.msg.angular.z = st.msg.angular.z * 2 ∧
      st'.speed = 0.4 :=
  ⟨doubled st (pyLower w), parse_detect_baseline st segs w hw hdet hsp,
    rfl, rfl, rfl⟩

/-- Witness for C1: a concrete baseline state with a nonzero held command and
a detected "FULL Speed" segment. -/
theorem full_speed_detection_doubles_witness :
    ∃ st', parse_asr_result ⟨0.2, ⟨⟨1, 0, 0⟩, ⟨0, 0, 3⟩⟩, none⟩
        (some ["FULL Speed"]) = .ok (st', st'.msg) ∧
      st'.msg.linear.x = (1 : ℚ) * 2 ∧
      st'.msg.angular.z = (3 : ℚ) * 2 ∧
      st'.speed = 0.4 :=
  full_speed_detection_doubles ⟨0.2, ⟨⟨1, 0, 0⟩, ⟨0, 0, 3⟩⟩, none⟩
    ["FULL Speed"] "FULL Speed" rfl (by decide) rfl

/-- C2: a second "full speed" detection while the mode is already elevated
leaves message and speed untouched (only the stored word changes) and
republishes the same command, so applying the handler twice from baseline
equals applying it once. -/
theorem full_speed_second_detection_noop (st : ASRState) (segs segs' : Hyp)
    (w w' : String)
    (hw : effSegWord st.segWord segs = some w)
    (hdet : pyContains (pyLower w) "full speed" = true)
    (hsp : st.speed = 0.2)
    (st1 : ASRState) (t1 : Twist)
    (h1 : parse_asr_result st (some segs) = .ok (st1, t1))
    (hw' : effSegWord st1.segWord segs' = some w')
    (hdet' : pyContains (pyLower w') "full speed" = true) :
    parse_asr_result st1 (some segs') =
      .ok ({ st1 with segWord := some (pyLower w') }, st1.msg) ∧
      t1 = st1.msg := by
  rw [parse_detect_baseline st segs w hw hdet hsp] at h1
  obtain ⟨hst1, ht1⟩ : st1 = doubled st (pyLower w) ∧
      t1 = (doubled st (pyLower w)).msg := by
    have := h1.symm
    exact ⟨congrArg Prod.fst (Except.ok.inj this),
      congrArg Prod.snd (Except.ok.inj this)⟩
  subst hst1
  exact ⟨parse_detect_elevated _ segs' w' hw' rfl, ht1⟩

/-- Witness for C2: the doubled successor of a concrete baseline state
absorbs a second detected "full speed" segment without further change. -/
theorem full_speed_second_detection_noop_witness :
    parse_asr_result (doubled ⟨0.2, ⟨⟨1, 0, 0⟩, ⟨0, 0, 3⟩⟩, none⟩ "full speed")
        (some ["full speed"]) =
      .ok ({ doubled ⟨0.2, ⟨⟨1, 0, 0⟩, ⟨0, 0, 3⟩⟩, none⟩ "full speed" with
          segWord := some (pyLower "full speed") },
        (doubled ⟨0.2, ⟨⟨1, 0, 0⟩, ⟨0, 0, 3⟩⟩, none⟩ "full speed").msg) ∧
      (doubled ⟨0.2, ⟨⟨1, 0, 0⟩, ⟨0, 0, 3⟩⟩, none⟩ "full speed").msg =
        (doubled ⟨0.2, ⟨⟨1, 0, 0⟩, ⟨0, 0, 3⟩⟩, none⟩ "full speed").msg :=
  full_speed_second_detection_noop ⟨0.2, ⟨⟨1, 0, 0⟩, ⟨0, 0, 3⟩⟩, none⟩
    ["full speed"] ["full speed"] "full speed" "full speed"
    rfl (by decide) rfl _ _
    (parse_detect_baseline ⟨0.2, ⟨⟨1, 0, 0⟩, ⟨0, 0, 3⟩⟩, none⟩
      ["full speed"] "full speed" rfl (by decide) rfl)
    rfl (by decide)

/-- C4: across any run of iterations in which the decoder reports no
hypothesis, every published command equals the starting command and the loop
state is unchanged. -/
theorem no_hyp_run_invariant (st : ASRState) (inputs : List LoopInput)
    (hno : ∀ x ∈ inputs, x = LoopInput.data none) :
    (runLoop st inputs).2 = .normal st ∧
      ∀ t, Event.pub t ∈ (runLoop st inputs).1 → t = st.msg := by
  induction inputs with
  | nil => exact ⟨rfl, by simp [runLoop]⟩
  | cons a rest ih =>
    have ha : a = LoopInput.data none := hno a (List.mem_cons_self a rest)
    subst ha
    have hrest : ∀ x ∈ rest, x = LoopInput.data none := fun x hx =>
      hno x (List.mem_cons_of_mem _ hx)
    obtain ⟨ih1, ih2⟩ := ih hrest
    refine ⟨?_, ?_⟩
    · simpa only [runLoop, parse_none] using ih1
    · intro t ht
      simp only [runLoop, parse_none, List.mem_cons] at ht
      rcases ht with h | h | h
      · cases h
      · exact (Event.pub.inj h.symm).symm ▸ rfl
      · exact ih2 t h

/-- Witness for C4: two consecutive no-hypothesis iterations from a concrete
state republish that state's command and leave the loop in it. -/
theorem no_hyp_run_invariant_witness :
    (∀ x ∈ [LoopInput.data none, LoopInput.data none],
        x = LoopInput.data none) ∧
    ((runLoop ⟨0.2, ⟨⟨1, 0, 0⟩, ⟨0, 0, 3⟩⟩, none⟩
        [LoopInput.data none, LoopInput.data none]).2 =
      .normal ⟨0.2, ⟨⟨1, 0, 0⟩, ⟨0, 0, 3⟩⟩, none⟩ ∧
      ∀ t, Event.pub t ∈ (runLoop ⟨0.2, ⟨⟨1, 0, 0⟩, ⟨0, 0, 3⟩⟩, none⟩
          [LoopInput.data none, LoopInput.data none]).1 →
        t = (⟨0.2, ⟨⟨1, 0, 0⟩, ⟨0, 0, 3⟩⟩, none⟩ : ASRState).msg) :=
  ⟨by decide, no_hyp_run_invariant ⟨0.2, ⟨⟨1, 0, 0⟩, ⟨0, 0, 3⟩⟩, none⟩
    [LoopInput.data none, LoopInput.data none] (by decide)⟩

/-- C5 evidence: on a two-segment hypothesis whose full text contains
"full speed", the code lowercases and dispatches on the leaked last segment
only ("left"), so the command is not doubled and the mode stays baseline. -/
theorem dispatch_uses_last_segment_only :
    parse_asr_result ⟨0.2, ⟨⟨5, 0, 0⟩, ⟨0, 0, 3⟩⟩, none⟩
        (some ["full speed", "left"]) =
      .ok (⟨0.2, ⟨⟨5, 0, 0⟩, ⟨0, 0, 3⟩⟩, some "left"⟩,
        ⟨⟨5, 0, 0⟩, ⟨0, 0, 3⟩⟩) := rfl

/-- C7: an empty audio read exits the loop at once: no decode, no publish, no
state change, and a normal (non-error) exit. -/
theorem eof_stops_loop (st : ASRState) (rest : List LoopInput) :
    runLoop st (LoopInput.eof :: rest) = ([], LoopExit.normal st) := rfl

/-! ### Counting and trace helpers -/

theorem countPubs_nil : countPubs [] = 0 := rfl

theorem countPubs_procRaw (evs : List Event) :
    countPubs (.procRaw :: evs) = countPubs evs := rfl

theorem countPubs_pub (t : Twist) (evs : List Event) :
    countPubs (.pub t :: evs) = countPubs evs + 1 := rfl

theorem countPubs_append (a b : List Event) :
    countPubs (a ++ b) = countPubs a + countPubs b := by
  simp [countPubs, List.filter_append]

/-- Messages published by the loop, from a state whose held command is zero,
are all zero, and the loop keeps the command zero. -/
theorem runLoop_pubs_zero (inputs : List LoopInput) (st : ASRState)
    (hz : st.msg = Twist.zero) :
    ∀ t, Event.pub t ∈ (runLoop st inputs).1 → t = Twist.zero := by
  induction inputs generalizing st with
  | nil => intro t ht; simp [runLoop] at ht
  | cons a rest ih =>
    cases a with
    | eof => intro t ht; simp [runLoop] at ht
    | data hyp =>
      cases hok : parse_asr_result st hyp with
      | error e => intro t ht; simp [runLoop, hok] at ht
      | ok p =>
        obtain ⟨st', t'⟩ := p
        obtain ⟨ht', hcase⟩ := parse_ok_inv st st' hyp t' hok
        have hz' : st'.msg = Twist.zero := by
          rcases hcase with ⟨hm, _⟩ | ⟨_, w, hd⟩
          · rw [hm, hz]
          · subst hd
            simp [doubled, hz, Twist.zero]
        intro t ht
        simp only [runLoop, hok, List.mem_cons] at ht
        rcases ht with h | h | h
        · cases h
        · cases Event.pub.inj h
          rw [ht', hz']
        · exact ih st' hz' t h

/-- Once the speed mode is elevated, every later state of the run keeps it. -/
theorem runLoopStates_elev (inputs : List LoopInput) (st : ASRState)
    (hst : st.speed = 0.4) :
    ∀ s ∈ runLoopStates st inputs, s.speed = 0.4 := by
  induction inputs generalizing st with
  | nil => intro s hs; simp [runLoopStates] at hs; rw [hs]; exact hst
  | cons a rest ih =>
    cases a with
    | eof => intro s hs; simp [runLoopStates] at hs; rw [hs]; exact hst
    | data hyp =>
      cases hok : parse_asr_result st hyp with
      | error e =>
        intro s hs
        simp [runLoopStates, hok] at hs
        rw [hs]; exact hst
      | ok p =>
        obtain ⟨st', t'⟩ := p
        obtain ⟨_, hcase⟩ := parse_ok_inv st st' hyp t' hok
        have hst' : st'.speed = 0.4 := by
          rcases hcase with ⟨_, he⟩ | ⟨h2, _, _⟩
          · rw [he]; exact hst
          · exact absurd (hst ▸ h2) speed_vals_ne
        intro s hs
        simp only [runLoopStates, hok, List.mem_cons] at hs
        rcases hs with h | h
        · rw [h]; exact hst
        · exact ih st' hst' s h

/-- In a one-element state list, every indexed lookup returns that element. -/
theorem getElem?_single {α : Type} (a : α) (i : ℕ) (s : α)
    (h : [a][i]? = some s) : s = a := by
  cases i with
  | zero => simpa using h.symm
  | succ n => simp at h

/-! ### Remaining claim theorems -/

/-- C3: a whole run's trace is the loop's trace plus exactly one more
publish, whose command is the all-zero `Twist()`, whatever the held command
was before exit; this holds for every input sequence, hence on the normal,
end-of-stream and error exit paths alike. -/
theorem shutdown_extra_zero_publish (inputs : List LoopInput) :
    countPubs (runProgram inputs) =
      countPubs (runLoop initState inputs).1 + 1 ∧
    (runProgram inputs).getLast? = some (Event.pub Twist.zero) ∧
    Twist.zero.linear.x = 0 ∧ Twist.zero.angular.z = 0 := by
  refine ⟨?_, ?_, rfl, rfl⟩
  · rw [runProgram, countPubs_append]; rfl
  · rw [runProgram, List.getLast?_concat]

/-- C6: for any run whose decoder hypotheses are well formed (a reported
hypothesis always carries at least one segment, as pocketsphinx guarantees),
the loop publishes exactly once per iteration whose audio read returned
data. -/
theorem publish_once_per_data_read (st : ASRState) (inputs : List LoopInput)
    (hwf : ∀ segs, LoopInput.data (some segs) ∈ inputs → segs ≠ []) :
    countPubs (runLoop st inputs).1 =
      (inputs.takeWhile LoopInput.isData).length := by
  induction inputs generalizing st with
  | nil => rfl
  | cons a rest ih =>
    have hwfr : ∀ segs, LoopInput.data (some segs) ∈ rest → segs ≠ [] :=
      fun segs hs => hwf segs (List.mem_cons_of_mem _ hs)
    cases a with
    | eof => rfl
    | data hyp =>
      have hok : ∃ st' t, parse_asr_result st hyp = .ok (st', t) := by
        cases hyp with
        | none => exact ⟨st, st.msg, rfl⟩
        | some segs =>
          exact parse_some_ok st segs (hwf segs (List.mem_cons_self _ _))
      obtain ⟨st', t, hok⟩ := hok
      simp only [runLoop, hok, countPubs_procRaw, countPubs_pub,
        List.takeWhile, LoopInput.isData, List.length_cons]
      rw [ih st' hwfr]

/-- Witness for C6: one data read with no hypothesis, then end-of-stream. -/
theorem publish_once_per_data_read_witness :
    (∀ segs, LoopInput.data (some segs) ∈
        [LoopInput.data none, LoopInput.eof] → segs ≠ []) ∧
    countPubs (runLoop ⟨0.2, ⟨⟨1, 0, 0⟩, ⟨0, 0, 3⟩⟩, none⟩
        [LoopInput.data none, LoopInput.eof]).1 =
      ([LoopInput.data none, LoopInput.eof].takeWhile LoopInput.isData).length
    := by
  have hwf : ∀ segs, LoopInput.data (some segs) ∈
      [LoopInput.data none, LoopInput.eof] → segs ≠ [] := by
    intro segs h
    simp at h
  exact ⟨hwf, publish_once_per_data_read ⟨0.2, ⟨⟨1, 0, 0⟩, ⟨0, 0, 3⟩⟩, none⟩
    [LoopInput.data none, LoopInput.eof] hwf⟩

/-- C8: every state reached by a run from the constructor's state has speed
mode 0.2 or 0.4 — no operation ever assigns any other value. -/
theorem speed_mode_two_values (inputs : List LoopInput) (s : ASRState)
    (hs : s ∈ runLoopStates initState inputs) :
    s.speed = 0.2 ∨ s.speed = 0.4 := by
  suffices h : ∀ (inputs : List LoopInput) (st : ASRState),
      st.speed = 0.2 ∨ st.speed = 0.4 →
      ∀ s ∈ runLoopStates st inputs, s.speed = 0.2 ∨ s.speed = 0.4 from
    h inputs initState (Or.inl rfl) s hs
  intro inputs
  induction inputs with
  | nil => intro st hst s hs; simp [runLoopStates] at hs; rw [hs]; exact hst
  | cons a rest ih =>
    intro st hst s hs
    cases a with
    | eof => simp [runLoopStates] at hs; rw [hs]; exact hst
    | data hyp =>
      cases hok : parse_asr_result st hyp with
      | error e =>
        simp [runLoopStates, hok] at hs
        rw [hs]; exact hst
      | ok p =>
        obtain ⟨st', t'⟩ := p
        obtain ⟨_, hcase⟩ := parse_ok_inv st st' hyp t' hok
        have hst' : st'.speed = 0.2 ∨ st'.speed = 0.4 := by
          rcases hcase with ⟨_, he⟩ | ⟨_, w, hd⟩
          · rw [he]; exact hst
          · subst hd; exact Or.inr rfl
        simp only [runLoopStates, hok, List.mem_cons] at hs
        rcases hs with h | h
        · rw [h]; exact hst
        · exact ih st' hst' s h

/-- Witness for C8 at the empty run: the constructor's own state. -/
theorem speed_mode_two_values_witness :
    initState ∈ runLoopStates initState [] ∧
      (initState.speed = 0.2 ∨ initState.speed = 0.4) :=
  ⟨List.mem_cons_self _ _,
    speed_mode_two_values [] initState (List.mem_cons_self _ _)⟩

/-- C9: in the code as written every published command — during the loop and
at shutdown — is the zero command: the command starts zero and doubling
preserves zero. -/
theorem all_published_commands_zero (inputs : List LoopInput) (t : Twist)
    (ht : Event.pub t ∈ runProgram inputs) : t = Twist.zero := by
  simp only [runProgram, List.mem_append, List.mem_singleton] at ht
  rcases ht with h | h
  · exact runLoop_pubs_zero inputs initState rfl t h
  · exact Event.pub.inj h

/-- Witness for C9: the empty run's single (shutdown) publish. -/
theorem all_published_commands_zero_witness :
    Event.pub Twist.zero ∈ runProgram [] ∧ Twist.zero = Twist.zero :=
  ⟨List.mem_cons_self _ _,
    all_published_commands_zero [] Twist.zero (List.mem_cons_self _ _)⟩

/-- C10: along any run from the constructor's state, once a state has speed
mode 0.4 every later state still has 0.4 — the flag never returns to the
baseline. -/
theorem speed_mode_never_reverts (inputs : List LoopInput) (i j : ℕ)
    (hij : i ≤ j) (si sj : ASRState)
    (hi : (runLoopStates initState inputs)[i]? = some si)
    (hj : (runLoopStates initState inputs)[j]? = some sj)
    (h4 : si.speed = 0.4) : sj.speed = 0.4 := by
  suffices h : ∀ (inputs : List LoopInput) (st : ASRState) (i j : ℕ),
      i ≤ j → ∀ si sj, (runLoopStates st inputs)[i]? = some si →
      (runLoopStates st inputs)[j]? = some sj →
      si.speed = 0.4 → sj.speed = 0.4 from
    h inputs initState i j hij si sj hi hj h4
  intro inputs
  induction inputs with
  | nil =>
    intro st i j _ si sj hi hj h4
    rw [getElem?_single st j sj hj]
    rw [← getElem?_single st i si hi]
    exact h4
  | cons a rest ih =>
    intro st i j hij si sj hi hj h4
    cases a with
    | eof =>
      rw [getElem?_single st j sj hj]
      rw [← getElem?_single st i si hi]
      exact h4
    | data hyp =>
      cases hok : parse_asr_result st hyp with
      | error e =>
        simp only [runLoopStates, hok] at hi hj
        rw [getElem?_single st j sj hj]
        rw [← getElem?_single st i si hi]
        exact h4
      | ok p =>
        obtain ⟨st', t'⟩ := p
        simp only [runLoopStates, hok] at hi hj
        cases i with
        | zero =>
          rw [List.getElem?_cons_zero] at hi
          have hsi := Option.some.inj hi
          subst hsi
          refine runLoopStates_elev (LoopInput.data hyp :: rest) st h4 sj ?_
          have hmem : sj ∈ st :: runLoopStates st' rest :=
            List.getElem?_mem hj
          simpa only [runLoopStates, hok] using hmem
        | succ i' =>
          cases j with
          | zero => omega
          | succ j' =>
            rw [List.getElem?_cons_succ] at hi hj
            exact ih st' i' j' (Nat.succ_le_succ_iff.mp hij) si sj hi hj h4

/-- Witness for C10: a run whose first iteration detects "full speed"; the
state at index 1 is elevated and stays elevated at index 1. -/
theorem speed_mode_never_reverts_witness :
    (runLoopStates initState [LoopInput.data (some ["full speed"])])[1]? =
        some (doubled initState (pyLower "full speed")) ∧
      (doubled initState (pyLower "full speed")).speed = 0.4 := by
  have hok := parse_detect_baseline initState ["full speed"] "full speed"
    rfl (by decide) rfl
  have hrun : runLoopStates initState [LoopInput.data (some ["full speed"])]
      = [initState, doubled initState (pyLower "full speed")] := by
    simp only [runLoopStates, hok]
  have hi : (runLoopStates initState
      [LoopInput.data (some ["full speed"])])[1]? =
      some (doubled initState (pyLower "full speed")) := by
    rw [hrun]; rfl
  exact ⟨hi, speed_mode_never_reverts [LoopInput.data (some ["full speed"])]
    1 1 le_rfl _ _ hi hi rfl⟩

end RosVC
